import Mathlib

/-!
Verification of the variance rule-checking engine described by the
specification of the Learn-Co-Contra-Variance repository, together with
shallow embeddings of the concrete demo code (`src/src/covariance.py`,
`src/src/mixed.py`, `src/practices/one/{main,answer}.py`).

The repository's core — a Type Registry, a Generic Declaration Model and a
Variance Compatibility Engine — exists only as a specification (the Python
files are illustrative callers), so those components are modelled from the
spec; the demo classes are translated directly from the Python source.
-/

namespace VarianceEngine

/-- Modelled from the spec: the Type Registry (§4.1) records nominal types
and their direct supertypes.  `register(type, supertypes)` requires every
listed supertype to be already registered (`UnknownSupertypeError`) and the
type itself to be fresh (`DuplicateTypeError`), so a registry is a list of
entries `(name, direct supertypes)` kept most-recently-registered first:
each entry's supertypes appear among the entries in its tail. -/
abbrev Registry := List (String × List String)

/-- The names registered in a registry. -/
def names (reg : Registry) : List String := reg.map Prod.fst

/-- Modelled from the spec: well-formedness guaranteed by the registration
contract — no duplicate names (`DuplicateTypeError`) and every direct
supertype registered before its subtype (`UnknownSupertypeError`).  This
also makes the subtype graph acyclic, as §3 requires. -/
def WF : Registry → Prop
  | [] => True
  | (n, sups) :: rest => n ∉ names rest ∧ (∀ s ∈ sups, s ∈ names rest) ∧ WF rest

instance instDecidableWF : (reg : Registry) → Decidable (WF reg)
  | [] => .isTrue trivial
  | (_n, _sups) :: rest =>
      have : Decidable (WF rest) := instDecidableWF rest
      inferInstanceAs (Decidable (_ ∧ _ ∧ _))

/-- Modelled from the spec: the set of types reachable from `a` via the
reflexive-transitive closure of direct-supertype edges (the "subtype
closure" of the glossary), computed over the registry.  An unregistered
name has an empty closure (`UnknownTypeError` is raised before any query
consults it). -/
def ancestors : Registry → String → List String
  | [], _ => []
  | (n, sups) :: rest, a =>
      if a = n then n :: (sups.map (ancestors rest)).flatten
      else ancestors rest a

/-- Modelled from the spec: `is_subtype(a, b)` returns true iff `a == b` or
`b` is reachable from `a` via the transitive closure of direct-supertype
edges (§4.1). -/
def is_subtype (reg : Registry) (a b : String) : Bool :=
  decide (b ∈ ancestors reg a)

/-- The direct-supertype edge relation recorded by the registry:
`s` is a declared direct supertype of `a`. -/
def dsup (reg : Registry) (a s : String) : Prop :=
  ∃ p ∈ reg, p.1 = a ∧ s ∈ p.2

/-- Modelled from the spec: a slot's variance tag (§3). -/
inductive Variance
  | covariant
  | contravariant
  | invariant
deriving DecidableEq

/-- Modelled from the spec: a slot's role tag, `data-position`,
`parameter-position` or `return-position` for function-like shapes (§3). -/
inductive Role
  | dataPos
  | paramPos
  | returnPos
deriving DecidableEq

/-- Modelled from the spec: a type-parameter slot carries a variance tag
and a role tag (§4.2). -/
structure Slot where
  variance : Variance
  role : Role
deriving DecidableEq

/-- Modelled from the spec: a Generic Declaration identifies a generic
entity by name together with its ordered type-parameter slots, and records
whether it is a function-like shape (§3, §4.2). -/
structure Declaration where
  declName : String
  slots : List Slot
  functionLike : Bool
deriving DecidableEq

/-- Modelled from the spec: an Instantiation binds a Generic Declaration
(identified by name) to one concrete type per slot, in slot order (§3). -/
structure Instantiation where
  declName : String
  args : List String
deriving DecidableEq

/-- Modelled from the spec: the named per-query errors of the Engine (§7):
`DeclarationMismatchError` and `UnknownTypeError`. -/
inductive EngineError
  | declarationMismatch
  | unknownType (t : String)
deriving DecidableEq

/-- A type participates in queries only if it was registered (§4.3). -/
def registered (reg : Registry) (t : String) : Bool :=
  decide (t ∈ names reg)

/-- Modelled from the spec: the variance actually applied to a slot.  For
function-like declarations the Engine applies contravariant composition to
every parameter-position slot and covariant composition to the
return-position slot (§4.3); otherwise the declared variance tag is used. -/
def effectiveVariance (functionLike : Bool) (s : Slot) : Variance :=
  if functionLike then
    match s.role with
    | .paramPos => .contravariant
    | .returnPos => .covariant
    | .dataPos => s.variance
  else s.variance

/-- Modelled from the spec: the per-slot compatibility rule (§4.3) —
covariant: `is_subtype(offered, required)`; contravariant:
`is_subtype(required, offered)`; invariant: exact equality. -/
def checkSlot (reg : Registry) (v : Variance) (required offered : String) :
    Bool :=
  match v with
  | .covariant => is_subtype reg offered required
  | .contravariant => is_subtype reg required offered
  | .invariant => decide (offered = required)

/-- Modelled from the spec: the Variance Compatibility Engine's decision
procedure `is_compatible(declaration, required, offered)` (§4.3).  It fails
with `DeclarationMismatchError` when the two instantiations bind
declarations with different names, with `UnknownTypeError` when a bound
type was never registered, and otherwise returns the logical AND of the
per-slot verdicts under each slot's effective variance. -/
def is_compatible (reg : Registry) (d : Declaration)
    (required offered : Instantiation) : Except EngineError Bool :=
  if required.declName = offered.declName then
    match (required.args ++ offered.args).find?
        (fun t => !(registered reg t)) with
    | some t => .error (.unknownType t)
    | none =>
        .ok ((d.slots.zip (required.args.zip offered.args)).all
          (fun p => checkSlot reg (effectiveVariance d.functionLike p.1)
            p.2.1 p.2.2))
  else .error .declarationMismatch

/-- The demo hierarchy of `src/src/animals.py` (`Animal`, `Cat(Animal)`,
`Dog(Animal)`) together with the builtins `str`/`object` used by
`src/src/callable.py`, registered newest-first so every direct supertype
appears in the tail. -/
def demoReg : Registry :=
  [("string", ["object"]),
   ("Dog", ["Animal"]),
   ("Cat", ["Animal"]),
   ("Animal", ["object"]),
   ("object", [])]

end VarianceEngine

namespace Covariance

/-- Translated from `src/src/covariance.py`: `ReadOnlyList` stores the
list given to its constructor (`self.items = items`). -/
structure ReadOnlyList (α : Type) where
  items : List α

/-- Python list subscription `xs[i]`: a non-negative index selects
position `i` when `i < len(xs)`; a negative index is offset by `len(xs)`
first; anything else raises `IndexError`, modelled as `none`. -/
def pyIndex {α : Type} (xs : List α) (i : Int) : Option α :=
  let j := if i < 0 then i + xs.length else i
  if 0 ≤ j then xs[j.toNat]? else none

/-- Translated from `src/src/covariance.py`:
`def get(self, index): return self.items[index]`. -/
def ReadOnlyList.get {α : Type} (l : ReadOnlyList α) (i : Int) : Option α :=
  pyIndex l.items i

end Covariance

namespace Mixed

/-- Translated from `src/src/mixed.py`: `Processor` holds the single
attribute `value` set by its constructor. -/
structure Processor (α : Type) where
  value : α

/-- `def get(self): return self.value` -/
def Processor.get {α : Type} (p : Processor α) : α := p.value

/-- `def set(self, value): self.value = value`, modelled as returning the
updated object state. -/
def Processor.set {α : Type} (p : Processor α) (v : α) : Processor α :=
  { p with value := v }

end Mixed

namespace PracticeOneMain

/-- Translated from `src/practices/one/main.py`: `Animal` holds the single
attribute `name`. -/
structure Animal where
  name : String

/-- `Cat(Animal)` redeclares the identical constructor (`self.name = name`)
and adds no behaviour, so a `Cat` instance is an object with a `name`. -/
def Cat (name : String) : Animal := ⟨name⟩

/-- `Shelter` stores the animal list given to its constructor. -/
structure Shelter where
  animals : List Animal

/-- `def get_animals(self): return self.animals` -/
def Shelter.get_animals (s : Shelter) : List Animal := s.animals

/-- `process_animals` prints each animal's name in order; the printed
lines are modelled as the returned list of strings. -/
def process_animals (shelter : Shelter) : List String :=
  shelter.get_animals.map (fun a => a.name)

/-- `main` builds `Shelter([Cat("Whiskers"), Cat("Mittens")])` and
processes it; the value is the program's printed output. -/
def main : List String :=
  process_animals (Shelter.mk [Cat "Whiskers", Cat "Mittens"])

end PracticeOneMain

namespace PracticeOneAnswer

/-- Translated from `src/practices/one/answer.py`: `Animal` holds the
single attribute `name`. -/
structure Animal where
  name : String

/-- `Cat(Animal)` redeclares the identical constructor and adds no
behaviour. -/
def Cat (name : String) : Animal := ⟨name⟩

/-- `Shelter` stores the animal list given to its constructor. -/
structure Shelter where
  animals : List Animal

/-- `def get_animals(self): return self.animals` -/
def Shelter.get_animals (s : Shelter) : List Animal := s.animals

/-- `process_animals` prints each animal's name in order. -/
def process_animals (shelter : Shelter) : List String :=
  shelter.get_animals.map (fun a => a.name)

/-- `main` builds `Shelter([Cat("Whiskers"), Cat("Mittens")])` and
processes it. -/
def main : List String :=
  process_animals (Shelter.mk [Cat "Whiskers", Cat "Mittens"])

end PracticeOneAnswer

/-- The evident translation between the two modules' `Animal` classes:
both are an object with a `name` attribute. -/
def animalOfMain (a : PracticeOneMain.Animal) : PracticeOneAnswer.Animal :=
  ⟨a.name⟩

/-- The evident translation between the two modules' `Shelter` classes. -/
def shelterOfMain (s : PracticeOneMain.Shelter) : PracticeOneAnswer.Shelter :=
  ⟨s.animals.map animalOfMain⟩

deriving instance DecidableEq for Except

namespace VarianceEngine

theorem mem_names_of_mem_ancestors {reg : Registry} {a b : String}
    (h : b ∈ ancestors reg a) : b ∈ names reg := by
  induction reg generalizing a with
  | nil => simp [ancestors] at h
  | cons e rest ih =>
    obtain ⟨n, sups⟩ := e
    by_cases han : a = n
    · subst han
      simp [ancestors] at h
      rcases h with rfl | ⟨s, hsmem, hb⟩
      · simp [names]
      · have := ih hb
        simp [names] at this ⊢
        exact Or.inr this
    · simp [ancestors, han] at h
      have := ih h
      simp [names] at this ⊢
      exact Or.inr this

theorem self_mem_ancestors {reg : Registry} {a : String}
    (h : a ∈ names reg) : a ∈ ancestors reg a := by
  induction reg with
  | nil => simp [names] at h
  | cons e rest ih =>
    obtain ⟨n, sups⟩ := e
    by_cases han : a = n
    · subst han; simp [ancestors]
    · simp only [names, List.map_cons, List.mem_cons] at h
      rcases h with h | h
      · exact absurd h han
      · simp only [ancestors, if_neg han]
        exact ih h

theorem ancestors_trans {reg : Registry} (hwf : WF reg) {a b c : String}
    (hab : b ∈ ancestors reg a) (hbc : c ∈ ancestors reg b) :
    c ∈ ancestors reg a := by
  induction reg generalizing a with
  | nil => simp [ancestors] at hab
  | cons e rest ih =>
    obtain ⟨n, sups⟩ := e
    obtain ⟨hnotin, hsup, hwf'⟩ := hwf
    by_cases han : a = n
    · subst han
      simp [ancestors] at hab ⊢
      rcases hab with rfl | ⟨s, hsmem, hb⟩
      · simpa [ancestors] using hbc
      · have hbrest : b ∈ names rest := mem_names_of_mem_ancestors hb
        have hbn : b ≠ a := fun h => hnotin (h ▸ hbrest)
        simp [ancestors, hbn] at hbc
        exact Or.inr ⟨s, hsmem, ih hwf' hb hbc⟩
    · simp [ancestors, han] at hab ⊢
      have hbrest : b ∈ names rest := mem_names_of_mem_ancestors hab
      have hbn : b ≠ n := fun h => hnotin (h ▸ hbrest)
      simp [ancestors, hbn] at hbc
      exact ih hwf' hab hbc

theorem ancestors_antisymm {reg : Registry} (hwf : WF reg) {a b : String}
    (hab : b ∈ ancestors reg a) (hba : a ∈ ancestors reg b) : a = b := by
  induction reg with
  | nil => simp [ancestors] at hab
  | cons e rest ih =>
    obtain ⟨n, sups⟩ := e
    obtain ⟨hnotin, hsup, hwf'⟩ := hwf
    by_cases han : a = n
    · subst han
      simp [ancestors] at hab
      rcases hab with rfl | ⟨s, hsmem, hb⟩
      · rfl
      · have hbrest : b ∈ names rest := mem_names_of_mem_ancestors hb
        have hbn : b ≠ a := fun h => hnotin (h ▸ hbrest)
        simp [ancestors, hbn] at hba
        exact absurd (mem_names_of_mem_ancestors hba) hnotin
    · simp [ancestors, han] at hab
      have hbrest : b ∈ names rest := mem_names_of_mem_ancestors hab
      have hbn : b ≠ n := fun h => hnotin (h ▸ hbrest)
      simp [ancestors, hbn] at hba
      exact ih hwf' hab hba

theorem dsup_mono {e : String × List String} {rest : Registry} {a s : String}
    (h : dsup rest a s) : dsup (e :: rest) a s := by
  obtain ⟨p, hp, h1, h2⟩ := h
  exact ⟨p, List.mem_cons_of_mem _ hp, h1, h2⟩

theorem fst_mem_names {reg : Registry} {p : String × List String}
    (hp : p ∈ reg) : p.1 ∈ names reg := by
  simp only [names]
  exact List.mem_map_of_mem Prod.fst hp

theorem dsup_names {reg : Registry} (hwf : WF reg) {a s : String}
    (h : dsup reg a s) : a ∈ names reg ∧ s ∈ names reg := by
  induction reg with
  | nil => obtain ⟨p, hp, _, _⟩ := h; simp at hp
  | cons e rest ih =>
    obtain ⟨n, sups⟩ := e
    obtain ⟨hnotin, hsup, hwf'⟩ := hwf
    obtain ⟨p, hp, h1, h2⟩ := h
    rcases List.mem_cons.mp hp with rfl | hp'
    · subst h1
      refine ⟨by simp [names], ?_⟩
      have := hsup s h2
      simp [names] at this ⊢
      exact Or.inr this
    · have := ih hwf' ⟨p, hp', h1, h2⟩
      simp [names] at this ⊢
      exact ⟨Or.inr this.1, Or.inr this.2⟩

theorem reach_cons {e : String × List String} {rest : Registry} {a b : String}
    (h : Relation.ReflTransGen (dsup rest) a b) :
    Relation.ReflTransGen (dsup (e :: rest)) a b :=
  Relation.ReflTransGen.mono (fun _ _ hxy => dsup_mono hxy) h

theorem reach_restrict {n : String} {sups : List String} {rest : Registry}
    (hwf : WF ((n, sups) :: rest)) {a b : String} (ha : a ∈ names rest)
    (h : Relation.ReflTransGen (dsup ((n, sups) :: rest)) a b) :
    Relation.ReflTransGen (dsup rest) a b := by
  obtain ⟨hnotin, hsup, hwf'⟩ := hwf
  revert ha
  induction h using Relation.ReflTransGen.head_induction_on with
  | refl => intro _; exact .refl
  | head step tail ih =>
    intro ha
    obtain ⟨p, hp, h1, h2⟩ := step
    rcases List.mem_cons.mp hp with rfl | hp'
    · subst h1; exact absurd ha hnotin
    · have hstep' : dsup rest _ _ := ⟨p, hp', h1, h2⟩
      have hc := (dsup_names hwf' hstep').2
      exact Relation.ReflTransGen.head hstep' (ih hc)

/-- The computed subtype closure agrees with reflexive-transitive
reachability along the direct-supertype edges, for registered start
points. -/
theorem mem_ancestors_iff_reach {reg : Registry} (hwf : WF reg)
    {a b : String} :
    b ∈ ancestors reg a ↔
      a ∈ names reg ∧ Relation.ReflTransGen (dsup reg) a b := by
  induction reg generalizing a with
  | nil => simp [ancestors, names]
  | cons e rest ih =>
    obtain ⟨n, sups⟩ := e
    obtain ⟨hnotin, hsup, hwf'⟩ := hwf
    by_cases han : a = n
    · subst han
      constructor
      · intro hb
        refine ⟨by simp [names], ?_⟩
        have hb' : b = a ∨ ∃ s ∈ sups, b ∈ ancestors rest s := by
          simpa [ancestors] using hb
        rcases hb' with rfl | ⟨s, hsmem, hbs⟩
        · exact .refl
        · have hrs := ((ih hwf').mp hbs).2
          have edge : dsup ((a, sups) :: rest) a s :=
            ⟨(a, sups), List.mem_cons_self _ _, rfl, hsmem⟩
          exact Relation.ReflTransGen.head edge (reach_cons hrs)
      · rintro ⟨-, hr⟩
        rcases Relation.ReflTransGen.cases_head hr with rfl | ⟨c, hstep, htail⟩
        · simp [ancestors]
        · obtain ⟨p, hp, h1, h2⟩ := hstep
          rcases List.mem_cons.mp hp with rfl | hp'
          · have hc : c ∈ names rest := hsup c h2
            have htail' := reach_restrict ⟨hnotin, hsup, hwf'⟩ hc htail
            have : b ∈ ancestors rest c := (ih hwf').mpr ⟨hc, htail'⟩
            simp [ancestors]
            exact Or.inr ⟨c, h2, this⟩
          · exact absurd (h1 ▸ fst_mem_names hp') hnotin
    · constructor
      · intro hb
        simp only [ancestors, if_neg han] at hb
        obtain ⟨ha', hr⟩ := (ih hwf').mp hb
        refine ⟨?_, reach_cons hr⟩
        simp [names] at ha' ⊢
        exact Or.inr ha'
      · rintro ⟨ha, hr⟩
        have ha' : a ∈ names rest := by
          simp [names] at ha
          rcases ha with rfl | ha
          · exact absurd rfl han
          · simpa [names] using ha
        have hr' := reach_restrict ⟨hnotin, hsup, hwf'⟩ ha' hr
        simp only [ancestors, if_neg han]
        exact (ih hwf').mpr ⟨ha', hr'⟩

theorem find?_unregistered_eq_none {reg : Registry} {l : List String}
    (h : ∀ t ∈ l, t ∈ names reg) :
    l.find? (fun t => !(registered reg t)) = none := by
  rw [List.find?_eq_none]
  intro x hx
  simp [registered, h x hx]

theorem is_subtype_refl {reg : Registry} {a : String} (h : a ∈ names reg) :
    is_subtype reg a a = true := by
  simpa [is_subtype] using self_mem_ancestors h

theorem checkSlot_self {reg : Registry} {v : Variance} {t : String}
    (h : t ∈ names reg) : checkSlot reg v t t = true := by
  cases v <;> simp [checkSlot, is_subtype_refl h]

theorem mem_zip_self {α : Type} {l : List α} {p : α × α}
    (h : p ∈ l.zip l) : p.1 = p.2 ∧ p.1 ∈ l := by
  induction l with
  | nil => simp at h
  | cons x xs ih =>
    simp only [List.zip_cons_cons, List.mem_cons] at h
    rcases h with rfl | h
    · exact ⟨rfl, by simp⟩
    · obtain ⟨h1, h2⟩ := ih h
      exact ⟨h1, by simp [h2]⟩

theorem is_subtype_antisymm {reg : Registry} (hwf : WF reg) {a b : String}
    (hab : is_subtype reg a b = true) (hba : is_subtype reg b a = true) :
    a = b := by
  simp only [is_subtype, decide_eq_true_eq] at hab hba
  exact ancestors_antisymm hwf hab hba

theorem is_compatible_single {reg : Registry} {n : String} {s : Slot}
    {fl : Bool} {r o : String} (hr : r ∈ names reg) (ho : o ∈ names reg) :
    is_compatible reg ⟨n, [s], fl⟩ ⟨n, [r]⟩ ⟨n, [o]⟩ =
      .ok (checkSlot reg (effectiveVariance fl s) r o) := by
  have hfind : ([r, o]).find? (fun t => !(registered reg t)) = none := by
    apply find?_unregistered_eq_none
    intro t ht
    simp at ht
    rcases ht with rfl | rfl
    · exact hr
    · exact ho
  simp [is_compatible, hfind]

/-- C1: for every declaration with a covariant slot and registered types
X, Y, an instantiation binding that slot to X is compatible where one
binding it to Y is required iff `is_subtype(X, Y)` holds; the reverse
direction (offered bound to the broader type) is not compatible unless
X = Y; and a covariant slot is always decided by
`is_subtype(offered, required)`. -/
theorem covariant_slot_rule (reg : Registry) (hwf : WF reg)
    (n X Y : String) (hX : X ∈ names reg) (hY : Y ∈ names reg) :
    (∀ r o, checkSlot reg Variance.covariant r o = is_subtype reg o r)
    ∧ (is_compatible reg ⟨n, [⟨.covariant, .dataPos⟩], false⟩
        ⟨n, [Y]⟩ ⟨n, [X]⟩ = .ok true ↔ is_subtype reg X Y = true)
    ∧ (is_subtype reg X Y = true → X ≠ Y →
        is_compatible reg ⟨n, [⟨.covariant, .dataPos⟩], false⟩
          ⟨n, [X]⟩ ⟨n, [Y]⟩ = .ok false) := by
  refine ⟨fun r o => rfl, ?_, ?_⟩
  · rw [is_compatible_single hY hX]
    simp [checkSlot, effectiveVariance]
  · intro hs hne
    rw [is_compatible_single hX hY]
    have hfalse : is_subtype reg Y X = false := by
      cases hb : is_subtype reg Y X
      · rfl
      · exact absurd (is_subtype_antisymm hwf hs hb) hne
    simp [checkSlot, effectiveVariance, hfalse]

/-- Witness for C1: a read-only container of `Cat` stands in for one of
`Animal` (Scenario 1), while the reverse substitution is rejected. -/
theorem covariant_slot_rule_witness :
    is_compatible demoReg ⟨"Container", [⟨.covariant, .dataPos⟩], false⟩
      ⟨"Container", ["Animal"]⟩ ⟨"Container", ["Cat"]⟩ = .ok true
    ∧ is_compatible demoReg ⟨"Container", [⟨.covariant, .dataPos⟩], false⟩
      ⟨"Container", ["Cat"]⟩ ⟨"Container", ["Animal"]⟩ = .ok false :=
  ⟨(covariant_slot_rule demoReg (by decide) "Container" "Cat" "Animal"
      (by decide) (by decide)).2.1.mpr (by decide),
   (covariant_slot_rule demoReg (by decide) "Container" "Cat" "Animal"
      (by decide) (by decide)).2.2 (by decide) (by decide)⟩

/-- C2: for every declaration with a contravariant slot and registered
types R, O, an instantiation binding that slot to O is compatible where
one binding it to R is required iff `is_subtype(R, O)` holds (the subtype
direction is reversed), and not vice versa unless R = O; a contravariant
slot is always decided by `is_subtype(required, offered)`. -/
theorem contravariant_slot_rule (reg : Registry) (hwf : WF reg)
    (n R O : String) (hR : R ∈ names reg) (hO : O ∈ names reg) :
    (∀ r o, checkSlot reg Variance.contravariant r o = is_subtype reg r o)
    ∧ (is_compatible reg ⟨n, [⟨.contravariant, .dataPos⟩], false⟩
        ⟨n, [R]⟩ ⟨n, [O]⟩ = .ok true ↔ is_subtype reg R O = true)
    ∧ (is_subtype reg R O = true → R ≠ O →
        is_compatible reg ⟨n, [⟨.contravariant, .dataPos⟩], false⟩
          ⟨n, [O]⟩ ⟨n, [R]⟩ = .ok false) := by
  refine ⟨fun r o => rfl, ?_, ?_⟩
  · rw [is_compatible_single hR hO]
    simp [checkSlot, effectiveVariance]
  · intro hs hne
    rw [is_compatible_single hO hR]
    have hfalse : is_subtype reg O R = false := by
      cases hb : is_subtype reg O R
      · rfl
      · exact absurd (is_subtype_antisymm hwf hs hb) hne
    simp [checkSlot, effectiveVariance, hfalse]

/-- Witness for C2: a `Consumer` of `Animal` stands in for a `Consumer`
of `Cat` (Scenario 3), while the reverse substitution is rejected
(Scenario 4). -/
theorem contravariant_slot_rule_witness :
    is_compatible demoReg ⟨"Consumer", [⟨.contravariant, .dataPos⟩], false⟩
      ⟨"Consumer", ["Cat"]⟩ ⟨"Consumer", ["Animal"]⟩ = .ok true
    ∧ is_compatible demoReg ⟨"Consumer", [⟨.contravariant, .dataPos⟩], false⟩
      ⟨"Consumer", ["Animal"]⟩ ⟨"Consumer", ["Cat"]⟩ = .ok false :=
  ⟨(contravariant_slot_rule demoReg (by decide) "Consumer" "Cat" "Animal"
      (by decide) (by decide)).2.1.mpr (by decide),
   (contravariant_slot_rule demoReg (by decide) "Consumer" "Cat" "Animal"
      (by decide) (by decide)).2.2 (by decide) (by decide)⟩

/-- C3: for a declaration with an invariant slot, compatibility holds on
that slot iff the bound types are identical, with no substitution in
either direction; the invariant rule is decided by exact equality alone,
independently of any registry, so `is_subtype` is never consulted. -/
theorem invariant_slot_rule (reg : Registry) (n X Y : String)
    (hX : X ∈ names reg) (hY : Y ∈ names reg) :
    (∀ (other : Registry) (r o : String),
        checkSlot other Variance.invariant r o = decide (o = r))
    ∧ (is_compatible reg ⟨n, [⟨.invariant, .dataPos⟩], false⟩
        ⟨n, [X]⟩ ⟨n, [Y]⟩ = .ok true ↔ Y = X)
    ∧ (X ≠ Y →
        is_compatible reg ⟨n, [⟨.invariant, .dataPos⟩], false⟩
          ⟨n, [X]⟩ ⟨n, [Y]⟩ = .ok false
        ∧ is_compatible reg ⟨n, [⟨.invariant, .dataPos⟩], false⟩
          ⟨n, [Y]⟩ ⟨n, [X]⟩ = .ok false) := by
  refine ⟨fun other r o => rfl, ?_, ?_⟩
  · rw [is_compatible_single hX hY]
    simp [checkSlot, effectiveVariance]
  · intro hne
    constructor
    · rw [is_compatible_single hX hY]
      simp [checkSlot, effectiveVariance, hne.symm]
    · rw [is_compatible_single hY hX]
      simp [checkSlot, effectiveVariance, hne]

/-- Witness for C3: with an invariant slot the Container<Animal> vs
Container<Cat> query of Scenario 2 is rejected, while the identical
instantiation is accepted. -/
theorem invariant_slot_rule_witness :
    is_compatible demoReg ⟨"Container", [⟨.invariant, .dataPos⟩], false⟩
      ⟨"Container", ["Animal"]⟩ ⟨"Container", ["Cat"]⟩ = .ok false
    ∧ is_compatible demoReg ⟨"Container", [⟨.invariant, .dataPos⟩], false⟩
      ⟨"Container", ["Cat"]⟩ ⟨"Container", ["Cat"]⟩ = .ok true :=
  ⟨((invariant_slot_rule demoReg "Container" "Animal" "Cat"
      (by decide) (by decide)).2.2 (by decide)).1,
   (invariant_slot_rule demoReg "Container" "Cat" "Cat"
      (by decide) (by decide)).2.1.mpr rfl⟩

/-- C4: for function-like declarations the Engine applies the
contravariant rule to every parameter-position slot and the covariant rule
to the return-position slot, the overall verdict is the AND of the
per-slot verdicts, and the Cat/Animal parameter with object/string return
scenario is accepted overall. -/
theorem function_like_rule (reg : Registry) (n : String)
    (v1 v2 : Variance) (C A O S : String)
    (hC : C ∈ names reg) (hA : A ∈ names reg)
    (hO : O ∈ names reg) (hS : S ∈ names reg)
    (hparam : is_subtype reg C A = true)
    (hret : is_subtype reg S O = true) :
    (∀ s : Slot, s.role = Role.paramPos →
        effectiveVariance true s = Variance.contravariant)
    ∧ (∀ s : Slot, s.role = Role.returnPos →
        effectiveVariance true s = Variance.covariant)
    ∧ (∀ (d : Declaration) (req off : Instantiation),
        req.declName = off.declName →
        (∀ t ∈ req.args ++ off.args, t ∈ names reg) →
        is_compatible reg d req off =
          .ok ((d.slots.zip (req.args.zip off.args)).all
            (fun p => checkSlot reg (effectiveVariance d.functionLike p.1)
              p.2.1 p.2.2)))
    ∧ is_compatible reg ⟨n, [⟨v1, .paramPos⟩, ⟨v2, .returnPos⟩], true⟩
        ⟨n, [C, O]⟩ ⟨n, [A, S]⟩ = .ok true := by
  refine ⟨?_, ?_, ?_, ?_⟩
  · intro s hs; simp [effectiveVariance, hs]
  · intro s hs; simp [effectiveVariance, hs]
  · intro d req off heq hregd
    simp [is_compatible, heq, find?_unregistered_eq_none hregd]
  · have hfind : ([C, O, A, S]).find? (fun t => !(registered reg t)) = none := by
      apply find?_unregistered_eq_none
      intro t ht
      simp at ht
      rcases ht with rfl | rfl | rfl | rfl
      · exact hC
      · exact hO
      · exact hA
      · exact hS
    simp [is_compatible, hfind, checkSlot, effectiveVariance, hparam, hret]

/-- Witness for C4 at Scenario 5: one contravariant parameter slot bound
to Cat (required) vs Animal (offered), one covariant return slot bound to
object (required) vs string (offered), overall verdict true. -/
theorem function_like_rule_witness :
    is_compatible demoReg
      ⟨"use_cat_function",
        [⟨.contravariant, .paramPos⟩, ⟨.covariant, .returnPos⟩], true⟩
      ⟨"use_cat_function", ["Cat", "object"]⟩
      ⟨"use_cat_function", ["Animal", "string"]⟩ = .ok true :=
  (function_like_rule demoReg "use_cat_function" .contravariant .covariant
    "Cat" "Animal" "object" "string" (by decide) (by decide) (by decide)
    (by decide) (by decide) (by decide)).2.2.2

/-- C5: `is_subtype` is reflexive on registered types and transitive, and
for a registered type it holds exactly when the two types are equal or the
supertype is reachable through the direct-supertype edges. -/
theorem is_subtype_props (reg : Registry) (hwf : WF reg) :
    (∀ a, a ∈ names reg → is_subtype reg a a = true)
    ∧ (∀ a b c, is_subtype reg a b = true → is_subtype reg b c = true →
        is_subtype reg a c = true)
    ∧ (∀ a b, a ∈ names reg →
        (is_subtype reg a b = true ↔
          a = b ∨ Relation.TransGen (dsup reg) a b)) := by
  refine ⟨fun a ha => is_subtype_refl ha, ?_, ?_⟩
  · intro a b c hab hbc
    simp only [is_subtype, decide_eq_true_eq] at hab hbc ⊢
    exact ancestors_trans hwf hab hbc
  · intro a b ha
    simp only [is_subtype, decide_eq_true_eq]
    rw [mem_ancestors_iff_reach hwf]
    constructor
    · rintro ⟨-, hr⟩
      rcases Relation.reflTransGen_iff_eq_or_transGen.mp hr with rfl | ht
      · exact Or.inl rfl
      · exact Or.inr ht
    · rintro (rfl | ht)
      · exact ⟨ha, .refl⟩
      · exact ⟨ha, ht.to_reflTransGen⟩

/-- Witness for C5: transitivity applied to the concrete chain
Cat → Animal → object of the demo hierarchy. -/
theorem is_subtype_props_witness :
    is_subtype demoReg "Cat" "object" = true :=
  (is_subtype_props demoReg (by decide)).2.1 "Cat" "Animal" "object"
    (by decide) (by decide)

/-- C6: every instantiation is compatible with an identical instantiation,
whatever variance tags the declaration's slots carry. -/
theorem compatibility_refl (reg : Registry)
    (d : Declaration) (inst : Instantiation)
    (hargs : ∀ t ∈ inst.args, t ∈ names reg) :
    is_compatible reg d inst inst = .ok true := by
  have hfind :
      (inst.args ++ inst.args).find? (fun t => !(registered reg t)) = none := by
    apply find?_unregistered_eq_none
    intro t ht
    exact (List.mem_append.mp ht).elim (hargs t) (hargs t)
  simp only [is_compatible, if_pos rfl, hfind]
  refine congrArg Except.ok ?_
  rw [List.all_eq_true]
  intro p hp
  obtain ⟨s, q⟩ := p
  have hq : q ∈ inst.args.zip inst.args := (List.of_mem_zip hp).2
  obtain ⟨h1, h2⟩ := mem_zip_self hq
  simp only []
  rw [show q.2 = q.1 from h1.symm]
  exact checkSlot_self (hargs q.1 h2)

/-- Witness for C6 on a three-slot declaration carrying all three
variance tags. -/
theorem compatibility_refl_witness :
    is_compatible demoReg
      ⟨"Mixed", [⟨.covariant, .dataPos⟩, ⟨.contravariant, .dataPos⟩,
        ⟨.invariant, .dataPos⟩], false⟩
      ⟨"Mixed", ["Cat", "Animal", "Dog"]⟩
      ⟨"Mixed", ["Cat", "Animal", "Dog"]⟩ = .ok true :=
  compatibility_refl demoReg _ _ (by decide)

/-- C7: a query over instantiations that bind declarations with different
names fails with `DeclarationMismatchError`; a query naming an
unregistered type fails with `UnknownTypeError`; a well-formed query
yields a verdict; and every query yields either a definitive verdict or
one of the two named errors (the embedding is a pure function of the
registry, so a failing query cannot change Registry or Declaration
state). -/
theorem query_error_behavior (reg : Registry) (d : Declaration)
    (req off : Instantiation) :
    (req.declName ≠ off.declName →
      is_compatible reg d req off = .error .declarationMismatch)
    ∧ (req.declName = off.declName →
        (∃ t ∈ req.args ++ off.args, t ∉ names reg) →
        ∃ t, t ∈ req.args ++ off.args ∧ t ∉ names reg ∧
          is_compatible reg d req off = .error (.unknownType t))
    ∧ (req.declName = off.declName →
        (∀ t ∈ req.args ++ off.args, t ∈ names reg) →
        ∃ v : Bool, is_compatible reg d req off = .ok v)
    ∧ ((∃ v : Bool, is_compatible reg d req off = .ok v)
        ∨ is_compatible reg d req off = .error .declarationMismatch
        ∨ (∃ t, is_compatible reg d req off = .error (.unknownType t))) := by
  refine ⟨?_, ?_, ?_, ?_⟩
  · intro hne; simp [is_compatible, hne]
  · intro heq hex
    cases hfind : (req.args ++ off.args).find? (fun t => !(registered reg t)) with
    | none =>
      exfalso
      obtain ⟨t, ht, hreg⟩ := hex
      have := List.find?_eq_none.mp hfind t ht
      simp [registered] at this
      exact hreg this
    | some t =>
      refine ⟨t, List.mem_of_find?_eq_some hfind, ?_, ?_⟩
      · have := List.find?_some hfind
        simpa [registered] using this
      · simp [is_compatible, heq, hfind]
  · intro heq hall
    exact ⟨(d.slots.zip (req.args.zip off.args)).all
        (fun p => checkSlot reg (effectiveVariance d.functionLike p.1)
          p.2.1 p.2.2),
      by simp [is_compatible, heq, find?_unregistered_eq_none hall]⟩
  · by_cases heq : req.declName = off.declName
    · cases hfind : (req.args ++ off.args).find? (fun t => !(registered reg t)) with
      | none =>
        exact Or.inl ⟨(d.slots.zip (req.args.zip off.args)).all
          (fun p => checkSlot reg (effectiveVariance d.functionLike p.1)
            p.2.1 p.2.2),
          by simp [is_compatible, heq, hfind]⟩
      | some t => exact Or.inr (Or.inr ⟨t, by simp [is_compatible, heq, hfind]⟩)
    · exact Or.inr (Or.inl (by simp [is_compatible, heq]))

/-- Witness for C7: a cross-declaration query fails with the mismatch
error (Scenario 6), and a query naming the unregistered type `Lizard`
fails with the unknown-type error. -/
theorem query_error_behavior_witness :
    is_compatible demoReg ⟨"Container", [⟨.covariant, .dataPos⟩], false⟩
      ⟨"Container", ["Cat"]⟩ ⟨"Consumer", ["Cat"]⟩
      = .error .declarationMismatch
    ∧ ∃ t, t ∈ ["Lizard"] ++ ["Cat"] ∧ t ∉ names demoReg ∧
        is_compatible demoReg ⟨"Container", [⟨.covariant, .dataPos⟩], false⟩
          ⟨"Container", ["Lizard"]⟩ ⟨"Container", ["Cat"]⟩
          = .error (.unknownType t) :=
  ⟨(query_error_behavior demoReg ⟨"Container", [⟨.covariant, .dataPos⟩], false⟩
      ⟨"Container", ["Cat"]⟩ ⟨"Consumer", ["Cat"]⟩).1 (by decide),
   (query_error_behavior demoReg ⟨"Container", [⟨.covariant, .dataPos⟩], false⟩
      ⟨"Container", ["Lizard"]⟩ ⟨"Container", ["Cat"]⟩).2.1
      (by decide) (by decide)⟩

end VarianceEngine

/-- C8: the broken program `practices/one/main.py` and its answer
`practices/one/answer.py` define extensionally equal functions — `Cat`,
`Shelter`/`get_animals`, `process_animals` and `main` agree under the
evident translation between the two modules' classes, so both modules
produce identical output on every input. -/
theorem practice_one_equivalence :
    (∀ a : String,
        animalOfMain (PracticeOneMain.Cat a) = PracticeOneAnswer.Cat a)
    ∧ (∀ s : PracticeOneMain.Shelter,
        (shelterOfMain s).get_animals = s.get_animals.map animalOfMain)
    ∧ (∀ s : PracticeOneMain.Shelter,
        PracticeOneAnswer.process_animals (shelterOfMain s) =
          PracticeOneMain.process_animals s)
    ∧ PracticeOneAnswer.main = PracticeOneMain.main := by
  refine ⟨fun a => rfl, fun s => rfl, fun s => ?_, rfl⟩
  simp [PracticeOneAnswer.process_animals, PracticeOneMain.process_animals,
    shelterOfMain, PracticeOneAnswer.Shelter.get_animals,
    PracticeOneMain.Shelter.get_animals, animalOfMain, List.map_map,
    Function.comp]

/-- C9: for every list used to construct a `ReadOnlyList` and every index
`i`, `get i` returns element `i` of the list when `0 ≤ i < len`, signals
`IndexError` (`none`) when `i ≥ len` or `i < -len`, the constructor
stores the given list unchanged, and `get` never returns a value not
present in the list. -/
theorem read_only_list_get_spec {α : Type} (xs : List α) :
    ((Covariance.ReadOnlyList.mk xs).items = xs)
    ∧ (∀ (i : Int), 0 ≤ i → ∀ (hlt : i.toNat < xs.length),
        (Covariance.ReadOnlyList.mk xs).get i = some (xs.get ⟨i.toNat, hlt⟩))
    ∧ (∀ i : Int, ((xs.length : Int) ≤ i ∨ i < -(xs.length : Int)) →
        (Covariance.ReadOnlyList.mk xs).get i = none)
    ∧ (∀ (i : Int) (v : α),
        (Covariance.ReadOnlyList.mk xs).get i = some v → v ∈ xs) := by
  refine ⟨rfl, ?_, ?_, ?_⟩
  · intro i h0 hlt
    have hneg : ¬ i < 0 := by omega
    simp only [Covariance.ReadOnlyList.get, Covariance.pyIndex,
      if_neg hneg, if_pos h0]
    simp [List.getElem?_eq_getElem hlt]
  · intro i hi
    rcases hi with hi | hi
    · have hneg : ¬ i < 0 := by omega
      simp only [Covariance.ReadOnlyList.get, Covariance.pyIndex,
        if_neg hneg, if_pos (by omega : (0:Int) ≤ i)]
      exact List.getElem?_eq_none (by omega)
    · have hneg : i < 0 := by omega
      simp only [Covariance.ReadOnlyList.get, Covariance.pyIndex,
        if_pos hneg]
      rw [if_neg (by omega)]
  · intro i v hv
    simp only [Covariance.ReadOnlyList.get, Covariance.pyIndex] at hv
    by_cases h0 : 0 ≤ (if i < 0 then i + (xs.length : Int) else i)
    · rw [if_pos h0] at hv
      exact List.getElem?_mem hv
    · rw [if_neg h0] at hv
      exact absurd hv (by simp)

/-- Witness for C9 on the two-element list: an in-range index returns the
stored element, an out-of-range index signals `IndexError`. -/
theorem read_only_list_get_spec_witness :
    (Covariance.ReadOnlyList.mk ["a", "b"]).get 1 = some "b"
    ∧ (Covariance.ReadOnlyList.mk ["a", "b"]).get 2 = none
    ∧ (Covariance.ReadOnlyList.mk ["a", "b"]).get (-3) = none :=
  ⟨by
    have := (read_only_list_get_spec ["a", "b"]).2.1 1 (by decide) (by decide)
    simpa using this,
   (read_only_list_get_spec ["a", "b"]).2.2.1 2 (by decide),
   (read_only_list_get_spec ["a", "b"]).2.2.1 (-3) (by decide)⟩

/-- C10: `Processor(v).get()` returns `v`; after `p.set(v)` a subsequent
`get` returns `v`; and `set` changes no state of the processor other than
the stored value — the resulting state is exactly the processor storing
`v`. -/
theorem processor_get_set_spec {α : Type} (v : α) (p : Mixed.Processor α) :
    ((Mixed.Processor.mk v).get = v)
    ∧ ((p.set v).get = v)
    ∧ (p.set v = Mixed.Processor.mk v) :=
  ⟨rfl, rfl, rfl⟩
